import Mathlib

/-!
Verification of `packages/shell-server/shell-server.js` (Meteor shell server).

The JavaScript source is shallowly embedded here:
* JS strings are `List Char` (`Str`); chunks arriving on a socket are `Str` values.
* `JSON.parse` is embedded as `jsonParse` (strict whole-string parse; a parse
  failure stands for the thrown `SyntaxError`, which is the only error
  `JSON.parse` throws).  `JSON.stringify` is embedded as `jsonStringify`.
* `readJSONFromStream` is embedded as an event-driven state machine (`RJ`,
  `rjData`, `rjStep`) whose state records the accumulated `dataSoFar` buffer,
  the contents written to the pass-through output stream, whether the
  source has been piped into the output stream, the listener attachments,
  and every invocation of the completion callback.
* `Server.onConnection` is embedded as `connCallback` (the body of the
  `readJSONFromStream` callback) plus a connection machine (`CState`,
  `cstep`) that adds the 1000 ms handshake timer and the socket state.
* The shared `evalCommandPromise` pipeline of `startREPL` is embedded as a
  microtask-queue semantics (`runMicrotasks`, `evalTrace`).
* `initializeHistory`'s load loop and `enableInteractiveMode`'s exit
  handlers are embedded as the pure functions `initializeHistory`,
  `onReplExit`, `onProcessExit`.
-/

abbrev Str := List Char

def chars (s : String) : Str := s.toList

/-! ### JSON.parse (strict JSON grammar, as used for the handshake header) -/

def isWsChar (c : Char) : Bool := c = ' ' || c = '\t' || c = '\n' || c = '\r'

def skipWs : Str → Str
  | [] => []
  | c :: r => if isWsChar c then skipWs r else c :: r

inductive JValue where
  | null : JValue
  | bool (b : Bool) : JValue
  | num (lit : Str) : JValue
  | str (s : Str) : JValue
  | arr (elems : List JValue) : JValue
  | obj (fields : List (Str × JValue)) : JValue

def isDigitCh (c : Char) : Bool := '0' ≤ c && c ≤ '9'

def spanDigits : Str → Str × Str
  | [] => ([], [])
  | c :: r =>
    if isDigitCh c then
      let p := spanDigits r
      (c :: p.1, p.2)
    else ([], c :: r)

def hexVal (c : Char) : Option Nat :=
  if '0' ≤ c && c ≤ '9' then some (c.toNat - 48)
  else if 'a' ≤ c && c ≤ 'f' then some (c.toNat - 87)
  else if 'A' ≤ c && c ≤ 'F' then some (c.toNat - 55)
  else none

/-- Integer part of a JSON number: `0`, or a nonzero digit followed by digits
(JSON rejects leading zeros, as does `JSON.parse`). -/
def parseIntPart : Str → Option (Str × Str)
  | [] => none
  | c :: r =>
    if c = '0' then some (['0'], r)
    else if isDigitCh c then
      let p := spanDigits r
      some (c :: p.1, p.2)
    else none

def parseFrac (s : Str) : Option (Str × Str) :=
  match s with
  | '.' :: r =>
    match spanDigits r with
    | ([], _) => none
    | (ds, r') => some ('.' :: ds, r')
  | _ => some ([], s)

def parseExp (s : Str) : Option (Str × Str) :=
  match s with
  | [] => some ([], [])
  | c :: r =>
    if c = 'e' || c = 'E' then
      let p := match r with
        | '+' :: r' => ((['+'] : Str), r')
        | '-' :: r' => ((['-'] : Str), r')
        | _ => (([] : Str), r)
      match spanDigits p.2 with
      | ([], _) => none
      | (ds, r2) => some (c :: (p.1 ++ ds), r2)
    else some ([], c :: r)

/-- A JSON number literal.  The literal text is kept (`JValue.num` stores it);
no claim in this development depends on numeric decoding. -/
def parseNumber (s : Str) : Option (Str × Str) := do
  let p0 : Str × Str := match s with
    | '-' :: r => (['-'], r)
    | _ => ([], s)
  let (ip, s1) ← parseIntPart p0.2
  let (fp, s2) ← parseFrac s1
  let (ep, s3) ← parseExp s2
  pure (p0.1 ++ ip ++ fp ++ ep, s3)

def escDecode (e : Char) : Option Char :=
  if e = '"' then some '"'
  else if e = '\\' then some '\\'
  else if e = '/' then some '/'
  else if e = 'b' then some (Char.ofNat 8)
  else if e = 'f' then some (Char.ofNat 12)
  else if e = 'n' then some '\n'
  else if e = 'r' then some '\r'
  else if e = 't' then some '\t'
  else none

def parseJString : Nat → Str → Option (Str × Str)
  | 0, _ => none
  | _ + 1, [] => none
  | fuel + 1, c :: r =>
    if c = '"' then some ([], r)
    else if c = '\\' then
      match r with
      | [] => none
      | 'u' :: h1 :: h2 :: h3 :: h4 :: r1 =>
        match hexVal h1, hexVal h2, hexVal h3, hexVal h4 with
        | some a, some b, some c2, some d =>
          (parseJString fuel r1).map fun p =>
            (Char.ofNat (((a * 16 + b) * 16 + c2) * 16 + d) :: p.1, p.2)
        | _, _, _, _ => none
      | e :: r1 =>
        match escDecode e with
        | some ch => (parseJString fuel r1).map fun p => (ch :: p.1, p.2)
        | none => none
    else if c.toNat < 32 then none
    else (parseJString fuel r).map fun p => (c :: p.1, p.2)

mutual

def parseValue : Nat → Str → Option (JValue × Str)
  | 0, _ => none
  | _ + 1, [] => none
  | fuel + 1, c :: r =>
    if c = 'n' then
      match r with
      | 'u' :: 'l' :: 'l' :: r1 => some (.null, r1)
      | _ => none
    else if c = 't' then
      match r with
      | 'r' :: 'u' :: 'e' :: r1 => some (.bool true, r1)
      | _ => none
    else if c = 'f' then
      match r with
      | 'a' :: 'l' :: 's' :: 'e' :: r1 => some (.bool false, r1)
      | _ => none
    else if c = '"' then
      (parseJString fuel r).map fun p => (.str p.1, p.2)
    else if c = '[' then
      match skipWs r with
      | ']' :: r1 => some (.arr [], r1)
      | r1 => (parseElems fuel r1).map fun p => (.arr p.1, p.2)
    else if c = '\x7b' then
      match skipWs r with
      | '\x7d' :: r1 => some (.obj [], r1)
      | r1 => (parseFields fuel r1).map fun p => (.obj p.1, p.2)
    else if c = '-' || isDigitCh c then
      (parseNumber (c :: r)).map fun p => (.num p.1, p.2)
    else none

def parseElems : Nat → Str → Option (List JValue × Str)
  | 0, _ => none
  | fuel + 1, s => do
    let (v, r1) ← parseValue fuel (skipWs s)
    match skipWs r1 with
    | ',' :: r2 => do
      let (vs, r3) ← parseElems fuel r2
      pure (v :: vs, r3)
    | ']' :: r2 => pure ([v], r2)
    | _ => none

def parseFields : Nat → Str → Option (List (Str × JValue) × Str)
  | 0, _ => none
  | fuel + 1, s =>
    match skipWs s with
    | '"' :: r => do
      let (k, r1) ← parseJString fuel r
      match skipWs r1 with
      | ':' :: r2 => do
        let (v, r3) ← parseValue fuel (skipWs r2)
        match skipWs r3 with
        | ',' :: r4 => do
          let (fs, r5) ← parseFields fuel r4
          pure ((k, v) :: fs, r5)
        | '\x7d' :: r4 => pure ([(k, v)], r4)
        | _ => none
      | _ => none
    | _ => none

end

/-- `JSON.parse(s)`: strict whole-string parse; `none` models the thrown
`SyntaxError` (the only error `JSON.parse` can throw). -/
def jsonParse (s : Str) : Option JValue :=
  match parseValue (2 * s.length + 8) (skipWs s) with
  | some (v, r) => if skipWs r = [] then some v else none
  | none => none

/-! ### JSON.stringify (compact form, as used for the one-shot response) -/

def hexDigit (n : Nat) : Char :=
  if n < 10 then Char.ofNat (48 + n) else Char.ofNat (87 + n)

def escapeChar (c : Char) : Str :=
  if c = '"' then ['\\', '"']
  else if c = '\\' then ['\\', '\\']
  else if c = '\n' then ['\\', 'n']
  else if c = '\r' then ['\\', 'r']
  else if c = '\t' then ['\\', 't']
  else if c.toNat = 8 then ['\\', 'b']
  else if c.toNat = 12 then ['\\', 'f']
  else if c.toNat < 32 then
    ['\\', 'u', '0', '0', hexDigit (c.toNat / 16), hexDigit (c.toNat % 16)]
  else [c]

def stringifyStr (s : Str) : Str := '"' :: (s.map escapeChar).flatten ++ ['"']

mutual

def jsonStringify : JValue → Str
  | .null => chars "null"
  | .bool true => chars "true"
  | .bool false => chars "false"
  | .num lit => lit
  | .str s => stringifyStr s
  | .arr es => '[' :: stringifyElems es ++ [']']
  | .obj fs => '\x7b' :: stringifyFields fs ++ ['\x7d']

def stringifyElems : List JValue → Str
  | [] => []
  | [v] => jsonStringify v
  | v :: vs => jsonStringify v ++ ',' :: stringifyElems vs

def stringifyFields : List (Str × JValue) → Str
  | [] => []
  | [(k, v)] => stringifyStr k ++ ':' :: jsonStringify v
  | (k, v) :: fs => stringifyStr k ++ ':' :: jsonStringify v ++ ',' :: stringifyFields fs

end

/-! ### Newline splitting

`buffer.toString("utf8").split("\n")` from `onData`, and the matching join.
`splitNL` has exactly the JS `String.prototype.split` semantics:
`splitNL [] = [[]]` and a trailing newline yields a trailing empty segment. -/

def splitNL : Str → List Str
  | [] => [[]]
  | c :: rest =>
    if c = '\n' then [] :: splitNL rest
    else
      match splitNL rest with
      | [] => [[c]]
      | s :: ss => (c :: s) :: ss

def joinNL : List Str → Str
  | [] => []
  | [s] => s
  | s :: ss => s ++ '\n' :: joinNL ss

/-! ### readJSONFromStream as a state machine

State of one `readJSONFromStream(inputStream, callback)` call.  `phase` is
`reading` until `finish` runs; `piped` after a successful parse (when
`inputStream.pipe(outputStream)` is active); `failed` after `finish(error)`.
`cbs` records every invocation of the completion callback (`some v` for
`callback(null, v, outputStream)`, `none` for an error invocation);
`attData/attErr/attClose` record which raw source-stream listeners are still
attached; `detachOps` counts how many times `finish` ran its
`removeListener` block. -/

inductive Phase where
  | reading : Phase
  | piped : Phase
  | failed : Phase
deriving DecidableEq

structure RJ where
  buf : Str
  out : Str
  phase : Phase
  cbs : List (Option JValue)
  attData : Bool
  attErr : Bool
  attClose : Bool
  detachOps : Nat

def rjInit : RJ := ⟨[], [], .reading, [], true, true, true, 0⟩

/-- The `while (lines.length > 0)` loop of `onData`: shift each pre-newline
fragment into `dataSoFar`, retry `JSON.parse` after each; on success return
the accumulated buffer, the parsed value and the not-yet-consumed lines. -/
def feedLines : Str → List Str → Str ⊕ (Str × JValue × List Str)
  | d, [] => .inl d
  | d, l :: rest =>
    match jsonParse (d ++ l) with
    | none => feedLines (d ++ l) rest
    | some j => .inr (d ++ l, j, rest)

/-- One `data` event.  While reading (listener attached): run the `onData`
loop; on success write `lines.join("\n")` to the output stream, pipe the
source into the output stream, and `finish(null, json)`.  Once piped, the
pipe forwards the chunk verbatim.  After a failure, or with the data
listener removed, the chunk is dropped.  The second component reports the
value passed to the completion callback this step, if it fired. -/
def rjData' (st : RJ) (chunk : Str) : RJ × Option JValue :=
  match st.phase with
  | .piped => ({ st with out := st.out ++ chunk }, none)
  | .failed => (st, none)
  | .reading =>
    if st.attData then
      match feedLines st.buf (splitNL chunk) with
      | .inl d => ({ st with buf := d }, none)
      | .inr (d, j, rest) =>
        ({ st with buf := d, out := st.out ++ joinNL rest, phase := .piped,
                   cbs := st.cbs ++ [some j],
                   attData := false, attErr := false, attClose := false,
                   detachOps := st.detachOps + 1 }, some j)
    else (st, none)

def rjData (st : RJ) (chunk : Str) : RJ := (rjData' st chunk).1

/-- `finish(error)`: guarded by the `finished` flag (here: `phase = reading`),
it detaches the three listeners and invokes the callback with the error. -/
def rjFinish' (st : RJ) : RJ × Bool :=
  match st.phase with
  | .reading =>
    ({ st with phase := .failed, cbs := st.cbs ++ [none],
               attData := false, attErr := false, attClose := false,
               detachOps := st.detachOps + 1 }, true)
  | _ => (st, false)

/-- Raw source-stream events: a data chunk, a stream error, a stream close.
The error/close handlers only run while their listener is attached. -/
inductive SEv where
  | data (s : Str) : SEv
  | errE : SEv
  | closeE : SEv

def rjStep (st : RJ) : SEv → RJ
  | .data s => rjData st s
  | .errE => if st.attErr then (rjFinish' st).1 else st
  | .closeE => if st.attClose then (rjFinish' st).1 else st

def rjRun (cs : List Str) : RJ := cs.foldl rjData rjInit

/-- Framing-machine invariant: before completion the callback has never
run, no detach has happened and all three listeners are attached; after
completion (success or failure) the callback has run exactly once, the
detach block ran exactly once, and no listener remains. -/
def RJInv (st : RJ) : Prop :=
  (st.phase = .reading ∧ st.cbs = [] ∧ st.detachOps = 0 ∧
     st.attData = true ∧ st.attErr = true ∧ st.attClose = true) ∨
  (st.phase ≠ .reading ∧ st.cbs.length = 1 ∧ st.detachOps = 1 ∧
     st.attData = false ∧ st.attErr = false ∧ st.attClose = false)

/-! ### History load (`initializeHistory`, lines 301–320)

The file contents are split on newlines; the loop pops lines from the end,
pushing each non-blank line not seen before onto `rli.history`.  The
resulting list is therefore newest-first (`rli.history[0]` is the most
recent line), as node's readline expects. -/

/-- JS `\s` on the characters that can appear here (ASCII whitespace). -/
def isSpaceChar (c : Char) : Bool :=
  c = ' ' || c = '\t' || c = '\n' || c = '\r' || c = '\x0b' || c = '\x0c'

/-- `/\S/.test(line)` -/
def hasNonSpace (l : Str) : Bool := l.any fun c => !(isSpaceChar c)

/-- One iteration of the `while` loop body for the popped `line`:
`if (line && /\S/.test(line) && ! seenLines[line])` push and mark seen. -/
def histStep (acc : List Str × List Str) (line : Str) : List Str × List Str :=
  if (!line.isEmpty) && hasNonSpace line && !(acc.2.contains line) then
    (acc.1 ++ [line], line :: acc.2)
  else acc

/-- `rli.history` after the load loop (newest-first). -/
def initializeHistory (contents : Str) : List Str :=
  ((splitNL contents).reverse.foldl histStep ([], [])).1

/-! ### Option negotiation (`Server.onConnection`, lines 111–185)

A parsed JSON object behaves as a JS object: later duplicate keys override
earlier ones (`objToMap` normalizes to that).  Negotiated option values are
either JSON values or the two host-supplied streams. -/

def getA {α : Type} : List (Str × α) → Str → Option α
  | [], _ => none
  | (k', v) :: m, k => if k' = k then some v else getA m k

def setA {α : Type} : List (Str × α) → Str → α → List (Str × α)
  | [], k, v => [(k, v)]
  | (k', v') :: m, k, v =>
    if k' = k then (k, v) :: m else (k', v') :: setA m k v

def delA {α : Type} (m : List (Str × α)) (k : Str) : List (Str × α) :=
  m.filter fun kv => !(kv.1 = k : Bool)

/-- `_.defaults`: assign only when the key is currently absent (a JSON value
is never `undefined`, so absence is exactly `getA = none`). -/
def defaultA {α : Type} (m : List (Str × α)) (k : Str) (v : α) : List (Str × α) :=
  match getA m k with
  | some _ => m
  | none => m ++ [(k, v)]

/-- The JS object produced by `JSON.parse` from a field list (last duplicate
key wins, first-insertion position kept). -/
def objToMap (fs : List (Str × JValue)) : List (Str × JValue) :=
  fs.foldl (fun m kv => setA m kv.1 kv.2) []

/-- Property access `v[k]`: throws a `TypeError` on `null` (modelled as
`.error ()`), yields the property on an object, and `undefined` (`none`) on
the other JSON values (numbers, strings and booleans own none of the
property names used by this code). -/
def jsGet : JValue → Str → Except Unit (Option JValue)
  | .null, _ => .error ()
  | .obj fs, k => .ok (getA (objToMap fs) k)
  | _, _ => .ok none

/-- `v[k]` where `v` is known not to be `null`. -/
def jsGetOpt (v : JValue) (k : Str) : Option JValue :=
  match v with
  | .obj fs => getA (objToMap fs) k
  | _ => none

/-- Is a JSON-number literal the number zero (`0`, `-0`, `0.0`, `0e9`, …)?
Zero iff every mantissa digit is `0`; the exponent cannot change that. -/
def numIsZero (lit : Str) : Bool :=
  (lit.takeWhile fun c => !(c = 'e' || c = 'E')).all fun c =>
    c = '0' || c = '-' || c = '.'

/-- JS truthiness of a JSON value (`if (options.evaluateAndExit)` etc.). -/
def jsTruthy : JValue → Bool
  | .null => false
  | .bool b => b
  | .num lit => !(numIsZero lit)
  | .str s => !s.isEmpty
  | .arr _ => true
  | .obj _ => true

/-- `options.key !== self.key`: strict inequality of a JSON value against
the secret string — false exactly when the value is that string. -/
def keyMismatch (kv : Option JValue) (selfKey : Str) : Bool :=
  match kv with
  | some (.str s) => !(s = selfKey : Bool)
  | _ => true

/-- A negotiated option value: a JSON value, or one of the two host-supplied
immutable stream objects. -/
inductive OptVal where
  | json (v : JValue) : OptVal
  | inputStream : OptVal
  | outputSocket : OptVal

abbrev ObjMap := List (Str × OptVal)

/-- Lines 126–147: `delete options.key`, `delete options.columns`,
`_.extend(options, {input, useGlobal: false, output})`, then
`_.defaults(options, {prompt: "> ", terminal: true, useColors: true,
ignoreUndefined: true})`. -/
def negotiate (fs : List (Str × JValue)) : ObjMap :=
  let m0 : ObjMap := (objToMap fs).map fun kv => (kv.1, OptVal.json kv.2)
  let m1 := delA m0 (chars "key")
  let m2 := delA m1 (chars "columns")
  let m3 := setA m2 (chars "input") .inputStream
  let m4 := setA m3 (chars "useGlobal") (.json (.bool false))
  let m5 := setA m4 (chars "output") .outputSocket
  let m6 := defaultA m5 (chars "prompt") (.json (.str (chars "> ")))
  let m7 := defaultA m6 (chars "terminal") (.json (.bool true))
  let m8 := defaultA m7 (chars "useColors") (.json (.bool true))
  defaultA m8 (chars "ignoreUndefined") (.json (.bool true))

def EXITING_MESSAGE : Str := chars "Shell exiting..."

/-- `EXITING_MESSAGE + "\n"` as written by `socket.end` / `output.write`. -/
def bannerLine : Str := EXITING_MESSAGE ++ ['\n']

/-- `{error: error + "", code: 1}` or `{result: result}` — the one-shot
completion message.  The evaluator is the opaque collaborator; its outcome
is an already-string-converted error or a result value. -/
def oneShotMessage : Except Str JValue → JValue
  | .error e => .obj [(chars "error", .str e), (chars "code", .num (chars "1"))]
  | .ok v => .obj [(chars "result", v)]

/-- Observable outcome of the `readJSONFromStream` callback body in
`Server.onConnection` (lines 111–185), with the one-shot completion写
inlined.  `threw` records a `TypeError` escaping the callback; `logged`
records the `console.error` on a handshake error; `writes`/`ended` are the
socket effects; `evalCommands` lists every code value handed to the
evaluator by this path; `negotiated` is the final options object passed to
the REPL. -/
structure COut where
  threw : Bool
  logged : Bool
  writes : List Str
  ended : Bool
  replStarted : Bool
  interactiveEnabled : Bool
  evalCommands : List (Option JValue)
  negotiated : Option ObjMap

def interactiveOut (m : ObjMap) : COut :=
  { threw := false, logged := false, writes := [], ended := false,
    replStarted := true, interactiveEnabled := true,
    evalCommands := [], negotiated := some (delA m (chars "evaluateAndExit")) }

/-- Lines 111–185: the callback body.  `error` is the callback's error
argument; `options` the parsed handshake value; `socketOpen` whether the
`socket` local is still non-null; `evalRes` the opaque evaluator's outcome
for the one-shot command (unused on the other paths). -/
def connCallback (error : Bool) (options : JValue) (selfKey : Str)
    (socketOpen : Bool) (evalRes : Except Str JValue) : COut :=
  if error then
    { threw := false, logged := true, writes := [], ended := false,
      replStarted := false, interactiveEnabled := false,
      evalCommands := [], negotiated := none }
  else
    match jsGet options (chars "key") with
    | .error _ =>
      { threw := true, logged := false, writes := [], ended := false,
        replStarted := false, interactiveEnabled := false,
        evalCommands := [], negotiated := none }
    | .ok kv =>
      if keyMismatch kv selfKey then
        { threw := false, logged := false,
          writes := if socketOpen then [bannerLine] else [],
          ended := socketOpen,
          replStarted := false, interactiveEnabled := false,
          evalCommands := [], negotiated := none }
      else
        let fs := match options with
          | .obj fs => fs
          | _ => []
        let m := negotiate fs
        match getA m (chars "evaluateAndExit") with
        | some (.json e) =>
          if jsTruthy e then
            let m' := setA m (chars "prompt") (.json (.str []))
            match jsGet e (chars "command") with
            | .error _ =>
              { threw := true, logged := false, writes := [], ended := false,
                replStarted := true, interactiveEnabled := false,
                evalCommands := [], negotiated := some m' }
            | .ok cmd =>
              { threw := false, logged := false,
                writes := if socketOpen then
                    [jsonStringify (oneShotMessage evalRes) ++ ['\n']]
                  else [],
                ended := socketOpen,
                replStarted := true, interactiveEnabled := false,
                evalCommands := [cmd], negotiated := some m' }
          else interactiveOut m
        | _ => interactiveOut m

/-! ### The whole connection (`Server.onConnection`, lines 89–186)

Adds to the framing machine: the `socket` local (nulled by the `close`
handler registered first), the 1000 ms handshake timer, and the effects of
the timeout handler and of the `readJSONFromStream` callback. -/

inductive CEvent where
  | data (s : Str) : CEvent
  | timeout : CEvent
  | sockError : CEvent
  | sockClose : CEvent

structure CState where
  rj : RJ
  socketOpen : Bool
  timerPending : Bool
  writes : List Str
  endCalled : Bool
  handled : List (Option JValue)

def cinit : CState := ⟨rjInit, true, true, [], false, []⟩

def cstep (selfKey : Str) (evalRes : Except Str JValue) (st : CState) :
    CEvent → CState
  | .data s =>
    let pr := rjData' st.rj s
    match pr.2 with
    | none => { st with rj := pr.1 }
    | some v =>
      let co := connCallback false v selfKey st.socketOpen evalRes
      { st with rj := pr.1, timerPending := false,
                writes := st.writes ++ co.writes,
                endCalled := st.endCalled || co.ended,
                handled := st.handled ++ [some v] }
  | .timeout =>
    if st.timerPending then
      if st.socketOpen then
        { st with timerPending := false,
                  rj := { st.rj with attData := false },
                  writes := st.writes ++ [bannerLine],
                  endCalled := true }
      else { st with timerPending := false }
    else st
  | .sockError =>
    if st.rj.attErr then
      let pr := rjFinish' st.rj
      if pr.2 then
        { st with rj := pr.1, timerPending := false, socketOpen := false,
                  handled := st.handled ++ [none] }
      else { st with rj := pr.1 }
    else st
  | .sockClose =>
    let st1 := { st with socketOpen := false }
    if st1.rj.attClose then
      let pr := rjFinish' st1.rj
      if pr.2 then
        { st1 with rj := pr.1, timerPending := false,
                   handled := st1.handled ++ [none] }
      else { st1 with rj := pr.1 }
    else st1

def crun (selfKey : Str) (evalRes : Except Str JValue)
    (evs : List CEvent) : CState :=
  evs.foldl (cstep selfKey evalRes) cinit

/-! ### The evaluation pipeline (`evalCommandPromise`, `wrappedDefaultEval`)

`const evalCommandPromise = Promise.resolve()` is a single already-resolved
promise; every `wrappedDefaultEval` call runs
`evalCommandPromise.then(() => defaultEval(code, context, file, callback))`
— the chain is never extended, so each call only schedules its handler on
the resolved promise's job queue.  Handlers therefore run in submission
(FIFO) order, each to completion; a synchronous evaluation invokes its
completion callback inside its handler, while an asynchronous evaluation's
callback fires only after the queued handlers have drained. -/

structure EvalReq where
  rid : Nat
  sync : Bool
deriving DecidableEq

inductive EvalEv where
  | invokeEv (rid : Nat) : EvalEv
  | callbackEv (rid : Nat) : EvalEv
deriving DecidableEq

/-- Drain the promise job queue: each handler invokes `defaultEval`; a
synchronous evaluation also fires its completion callback before the
handler returns. -/
def runMicrotasks : List EvalReq → List EvalEv
  | [] => []
  | r :: rs =>
    (.invokeEv r.rid :: if r.sync then [.callbackEv r.rid] else [])
      ++ runMicrotasks rs

/-- Completion callbacks of asynchronous evaluations fire after the queue
has drained (taken here in submission order; any order exhibits the same
counterexample). -/
def pendingCallbacks (rs : List EvalReq) : List EvalEv :=
  (rs.filter fun r => !r.sync).map fun r => .callbackEv r.rid

def evalTrace (rs : List EvalReq) : List EvalEv :=
  runMicrotasks rs ++ pendingCallbacks rs

def firstIdx : List EvalEv → EvalEv → Option Nat
  | [], _ => none
  | e :: t, x => if e = x then some 0 else (firstIdx t x).map (· + 1)

/-- The claimed serialization property for requests `i` (submitted first)
and `j` (submitted second): `j`'s evaluator invocation never begins before
`i`'s completion callback has fired. -/
def SecondWaitsForFirst (rs : List EvalReq) (i j : Nat) : Prop :=
  ∀ a b, firstIdx (evalTrace rs) (.callbackEv i) = some a →
         firstIdx (evalTrace rs) (.invokeEv j) = some b → a < b

def invokeOrder (t : List EvalEv) : List Nat :=
  t.filterMap fun e =>
    match e with
    | .invokeEv i => some i
    | _ => none

/-! ### Interactive-mode exit signalling (`enableInteractiveMode`, 272–287) -/

structure OutS where
  isOpen : Bool
  writes : List Str
  ended : Bool

/-- The `repl.on("exit")` handler: write `EXITING_MESSAGE + "\n"` and end
the output stream, guarded by `options.output` being non-null. -/
def onReplExit (st : OutS) : OutS :=
  if st.isOpen then
    { st with writes := st.writes ++ [bannerLine], ended := true }
  else st

/-- The `process.on("exit")` handler: end the output stream without the
banner, same guard. -/
def onProcessExit (st : OutS) : OutS :=
  if st.isOpen then { st with ended := true } else st

/-! ### Helper lemmas -/

theorem splitNL_ne_nil (l : Str) : splitNL l ≠ [] := by
  cases l with
  | nil => simp [splitNL]
  | cons c rest =>
    by_cases h : c = '\n' <;> simp [splitNL, h]
    cases hs : splitNL rest <;> simp

theorem splitNL_of_not_mem {l : Str} (h : '\n' ∉ l) : splitNL l = [l] := by
  induction l with
  | nil => rfl
  | cons c rest ih =>
    have hc : ¬ c = '\n' := fun hc => h (hc ▸ List.mem_cons_self c rest)
    have hr : '\n' ∉ rest := fun hr => h (List.mem_cons_of_mem c hr)
    simp [splitNL, hc, ih hr]

theorem splitNL_append_cons {a : Str} (b : Str) (h : '\n' ∉ a) :
    splitNL (a ++ '\n' :: b) = a :: splitNL b := by
  induction a with
  | nil => simp [splitNL]
  | cons c rest ih =>
    have hc : ¬ c = '\n' := fun hc => h (hc ▸ List.mem_cons_self c rest)
    have hr : '\n' ∉ rest := fun hr => h (List.mem_cons_of_mem c hr)
    simp only [List.cons_append, splitNL, hc, if_false, List.append_eq, ih hr]

theorem joinNL_splitNL (l : Str) : joinNL (splitNL l) = l := by
  induction l with
  | nil => rfl
  | cons c rest ih =>
    by_cases h : c = '\n'
    · subst h
      simp only [splitNL, if_true]
      cases hs : splitNL rest with
      | nil => exact absurd hs (splitNL_ne_nil rest)
      | cons s ss =>
        rw [hs] at ih
        simp [joinNL, ih]
    · simp only [splitNL, h, if_false]
      cases hs : splitNL rest with
      | nil => exact absurd hs (splitNL_ne_nil rest)
      | cons s ss =>
        rw [hs] at ih
        cases ss with
        | nil => simpa [joinNL] using congrArg (c :: ·) ih
        | cons s' ss' => simpa [joinNL] using congrArg (c :: ·) ih

theorem foldl_rjData_piped (cs : List Str) (st : RJ) (h : st.phase = .piped) :
    cs.foldl rjData st =
      { st with out := st.out ++ cs.flatten } := by
  induction cs generalizing st with
  | nil => simp
  | cons c cs ih =>
    simp only [List.foldl_cons, rjData, rjData', h, List.flatten_cons]
    rw [ih _ rfl]
    simp [List.append_assoc]

/-- Core framing lemma: from any mid-header state (buffer `d`, remaining
header `t`), a chunking whose bytes are the rest of the header, the
delimiting newline, then the payload `p`, drives the machine to the piped
state with exactly one successful callback; the output stream receives `p`,
preceded by the delimiting newline exactly when a chunk boundary fell at
the end of the header (so the newline was not consumed with it). -/
theorem rjFeed_completes (h p : Str) (v : JValue)
    (hnl : '\n' ∉ h) (hv : jsonParse h = some v)
    (hpref : ∀ n, n < h.length → (jsonParse (h.take n)).isNone = true) :
    ∀ (cs : List Str) (d t out0 : Str) (cb0 : List (Option JValue)) (n0 : Nat),
      d ++ t = h → t ≠ [] → cs.flatten = t ++ '\n' :: p →
      ∃ tail, (tail = '\n' :: p ∨ tail = p) ∧
        cs.foldl rjData ⟨d, out0, .reading, cb0, true, true, true, n0⟩ =
          ⟨h, out0 ++ tail, .piped, cb0 ++ [some v], false, false, false, n0 + 1⟩ := by
  intro cs
  induction cs with
  | nil =>
    intro d t out0 cb0 n0 hdt htne hflat
    simp at hflat
  | cons c cs ih =>
    intro d t out0 cb0 n0 hdt htne hflat
    rw [List.flatten_cons] at hflat
    have htnl : '\n' ∉ t := fun hm => hnl (hdt ▸ List.mem_append_right d hm)
    rcases List.append_eq_append_iff.mp hflat with ⟨a', ht, hfl⟩ | ⟨c', hc, hp2⟩
    · cases a' with
      | nil =>
        rw [List.append_nil] at ht
        subst ht
        rw [List.nil_append] at hfl
        have hparse : jsonParse (d ++ t) = some v := by rw [hdt]; exact hv
        have hstep : rjData ⟨d, out0, .reading, cb0, true, true, true, n0⟩ t =
            ⟨d ++ t, out0, .piped, cb0 ++ [some v], false, false, false, n0 + 1⟩ := by
          simp [rjData, rjData', splitNL_of_not_mem htnl, feedLines, hparse, joinNL]
        rw [List.foldl_cons, hstep, foldl_rjData_piped _ _ rfl]
        exact ⟨'\n' :: p, Or.inl rfl, by simp [hdt, hfl]⟩
      | cons a1 a2 =>
        subst ht
        have hcnl : '\n' ∉ c := fun hm => htnl (List.mem_append_left _ hm)
        have hlen : (d ++ c).length < h.length := by
          rw [← hdt]
          simp only [List.length_append, List.length_cons]
          omega
        have htake : h.take (d ++ c).length = d ++ c := by
          rw [← hdt, ← List.append_assoc]
          exact List.take_left _ _
        have hparse : jsonParse (d ++ c) = none := by
          have hn := hpref _ hlen
          rw [htake] at hn
          exact Option.eq_none_of_isNone hn
        have hstep : rjData ⟨d, out0, .reading, cb0, true, true, true, n0⟩ c =
            ⟨d ++ c, out0, .reading, cb0, true, true, true, n0⟩ := by
          simp [rjData, rjData', splitNL_of_not_mem hcnl, feedLines, hparse]
        rw [List.foldl_cons, hstep]
        exact ih (d ++ c) (a1 :: a2) out0 cb0 n0
          (by rw [List.append_assoc]; exact hdt) (by simp) hfl
    · cases c' with
      | nil =>
        rw [List.append_nil] at hc
        subst hc
        rw [List.nil_append] at hp2
        have hparse : jsonParse (d ++ c) = some v := by rw [hdt]; exact hv
        have hstep : rjData ⟨d, out0, .reading, cb0, true, true, true, n0⟩ c =
            ⟨d ++ c, out0, .piped, cb0 ++ [some v], false, false, false, n0 + 1⟩ := by
          simp [rjData, rjData', splitNL_of_not_mem htnl, feedLines, hparse, joinNL]
        rw [List.foldl_cons, hstep, foldl_rjData_piped _ _ rfl]
        exact ⟨'\n' :: p, Or.inl rfl, by simp [hdt, ← hp2]⟩
      | cons x c2 =>
        rw [List.cons_append] at hp2
        obtain ⟨hx, hp3⟩ := List.cons.inj hp2
        subst hc
        rw [← hx]
        have hsplit : splitNL (t ++ '\n' :: c2) = t :: splitNL c2 :=
          splitNL_append_cons c2 htnl
        have hparse : jsonParse (d ++ t) = some v := by rw [hdt]; exact hv
        have hstep : rjData ⟨d, out0, .reading, cb0, true, true, true, n0⟩
              (t ++ '\n' :: c2) =
            ⟨d ++ t, out0 ++ c2, .piped, cb0 ++ [some v],
              false, false, false, n0 + 1⟩ := by
          simp [rjData, rjData', hsplit, feedLines, hparse, joinNL_splitNL]
        rw [List.foldl_cons, hstep, foldl_rjData_piped _ _ rfl]
        exact ⟨p, Or.inr rfl, by simp [hdt, hp3, List.append_assoc]⟩

/-- C2: for every raw input stream whose bytes are one JSON header (no
proper prefix of which parses) followed by a newline and arbitrary payload,
delivered as N ≥ 1 arbitrary chunks, `readJSONFromStream` extracts exactly
the header value, writes into the pass-through stream exactly the bytes
that followed the consumed header (the delimiting newline being consumed
with the header exactly when it arrived inside a chunk still being
scanned), and forwards all later-arriving bytes verbatim. -/
theorem readJSON_framing (h p : Str) (v : JValue) (cs : List Str)
    (_hcs : cs ≠ [])
    (hflat : cs.flatten = h ++ '\n' :: p)
    (hnl : '\n' ∉ h)
    (hv : jsonParse h = some v)
    (hpref : ∀ n, n < h.length → (jsonParse (h.take n)).isNone = true) :
    (rjRun cs).cbs = [some v] ∧ (rjRun cs).phase = .piped ∧
    (∃ consumed, (consumed = h ∨ consumed = h ++ ['\n']) ∧
       h ++ '\n' :: p = consumed ++ (rjRun cs).out) ∧
    ∀ es : List Str, (rjRun (cs ++ es)).out = (rjRun cs).out ++ es.flatten := by
  have hnil : jsonParse ([] : Str) = none := rfl
  have hne : h ≠ [] := by
    intro he
    rw [he, hnil] at hv
    simp at hv
  obtain ⟨tail, htail, hfold⟩ :=
    rjFeed_completes h p v hnl hv hpref cs [] h [] [] 0 (List.nil_append h) hne hflat
  have hrun : rjRun cs = ⟨h, tail, .piped, [some v], false, false, false, 1⟩ := by
    simpa [rjRun, rjInit] using hfold
  refine ⟨by rw [hrun], by rw [hrun], ?_, ?_⟩
  · rcases htail with h1 | h2
    · exact ⟨h, Or.inl rfl, by rw [hrun, h1]⟩
    · exact ⟨h ++ ['\n'], Or.inr rfl, by rw [hrun, h2]; simp⟩
  · intro es
    have hsplit2 : rjRun (cs ++ es) = es.foldl rjData (rjRun cs) := by
      simp [rjRun, List.foldl_append]
    rw [hsplit2, hrun, foldl_rjData_piped es _ rfl]

/-- C2 witness: the spec's concrete chunking — header split as
`{"ke` then `y":"abc"}\nfoo\nbar` — yields the header object and exactly
`foo\nbar` in the pass-through stream. -/
theorem readJSON_framing_witness :
    (rjRun [chars "\x7b\"ke", chars "y\":\"abc\"\x7d\nfoo\nbar"]).cbs
        = [some (.obj [(chars "key", .str (chars "abc"))])] ∧
    (rjRun [chars "\x7b\"ke", chars "y\":\"abc\"\x7d\nfoo\nbar"]).phase = .piped ∧
    (∃ consumed,
        (consumed = chars "\x7b\"key\":\"abc\"\x7d" ∨
         consumed = chars "\x7b\"key\":\"abc\"\x7d" ++ ['\n']) ∧
        chars "\x7b\"key\":\"abc\"\x7d" ++ '\n' :: chars "foo\nbar" =
          consumed ++ (rjRun [chars "\x7b\"ke", chars "y\":\"abc\"\x7d\nfoo\nbar"]).out) ∧
    ∀ es : List Str,
      (rjRun ([chars "\x7b\"ke", chars "y\":\"abc\"\x7d\nfoo\nbar"] ++ es)).out =
        (rjRun [chars "\x7b\"ke", chars "y\":\"abc\"\x7d\nfoo\nbar"]).out ++ es.flatten :=
  readJSON_framing (chars "\x7b\"key\":\"abc\"\x7d") (chars "foo\nbar")
    (.obj [(chars "key", .str (chars "abc"))])
    [chars "\x7b\"ke", chars "y\":\"abc\"\x7d\nfoo\nbar"]
    (by decide) (by decide) (by decide) rfl (by decide)

theorem rjStep_inv (st : RJ) (e : SEv) (hi : RJInv st) : RJInv (rjStep st e) := by
  rcases hi with ⟨h1, h2, h3, h4, h5, h6⟩ | ⟨h1, h2, h3, h4, h5, h6⟩
  · cases e with
    | data s =>
      simp only [rjStep, rjData, rjData', h1, h4, if_true]
      cases hf : feedLines st.buf (splitNL s) with
      | inl d =>
        exact Or.inl ⟨by simp, by simp [h2], by simp [h3], by simp,
          by simp [h5], by simp [h6]⟩
      | inr x =>
        obtain ⟨d, j, rest⟩ := x
        exact Or.inr ⟨by simp, by simp [h2], by simp [h3], rfl, rfl, rfl⟩
    | errE =>
      simp only [rjStep, h5, if_true, rjFinish', h1]
      exact Or.inr ⟨by simp, by simp [h2], by simp [h3], rfl, rfl, rfl⟩
    | closeE =>
      simp only [rjStep, h6, if_true, rjFinish', h1]
      exact Or.inr ⟨by simp, by simp [h2], by simp [h3], rfl, rfl, rfl⟩
  · cases e with
    | data s =>
      cases hp : st.phase with
      | reading => exact absurd hp h1
      | piped =>
        simp only [rjStep, rjData, rjData', hp]
        exact Or.inr ⟨by simp, h2, h3, h4, h5, h6⟩
      | failed =>
        simp only [rjStep, rjData, rjData', hp]
        exact Or.inr ⟨by simp [hp], h2, h3, h4, h5, h6⟩
    | errE =>
      simp only [rjStep, h5, if_false]
      exact Or.inr ⟨h1, h2, h3, h4, h5, h6⟩
    | closeE =>
      simp only [rjStep, h6, if_false]
      exact Or.inr ⟨h1, h2, h3, h4, h5, h6⟩

theorem foldl_rjStep_inv (evs : List SEv) (st : RJ) (hi : RJInv st) :
    RJInv (evs.foldl rjStep st) := by
  induction evs generalizing st with
  | nil => exact hi
  | cons e evs ih => exact ih _ (rjStep_inv st e hi)

/-- C8: over any sequence of raw source-stream events, `readJSONFromStream`
invokes its completion callback at most once, and exactly when it has
completed (with a value, an error, or a close) it has detached its data,
error and close listeners, having run the detach block exactly once. -/
theorem readJSON_single_completion (evs : List SEv) :
    ((evs.foldl rjStep rjInit).cbs = [] ∧
       (evs.foldl rjStep rjInit).detachOps = 0 ∧
       (evs.foldl rjStep rjInit).attData = true ∧
       (evs.foldl rjStep rjInit).attErr = true ∧
       (evs.foldl rjStep rjInit).attClose = true) ∨
    ((evs.foldl rjStep rjInit).cbs.length = 1 ∧
       (evs.foldl rjStep rjInit).detachOps = 1 ∧
       (evs.foldl rjStep rjInit).attData = false ∧
       (evs.foldl rjStep rjInit).attErr = false ∧
       (evs.foldl rjStep rjInit).attClose = false) := by
  have hinv := foldl_rjStep_inv evs rjInit (Or.inl ⟨rfl, rfl, rfl, rfl, rfl, rfl⟩)
  rcases hinv with ⟨_, h2, h3, h4, h5, h6⟩ | ⟨_, h2, h3, h4, h5, h6⟩
  · exact Or.inl ⟨h2, h3, h4, h5, h6⟩
  · exact Or.inr ⟨h2, h3, h4, h5, h6⟩

/-- C3: loading a history file with contents `a\nb\na\nc\n` yields
`rli.history = ["c","a","b"]` — node readline's recall list, newest-first —
whose oldest-to-newest reading is `["b","a","c"]`: blank lines dropped,
each duplicated line collapsed to its most recent occurrence, surviving
lines otherwise keeping their original relative order. -/
theorem history_load_concrete :
    initializeHistory (chars "a\nb\na\nc\n") = [chars "c", chars "a", chars "b"] ∧
    (initializeHistory (chars "a\nb\na\nc\n")).reverse =
      [chars "b", chars "a", chars "c"] :=
  ⟨rfl, rfl⟩

/-- C9: on the REPL's `exit` event the server writes the literal
`Shell exiting...` line to the still-open output stream and ends it; when
the host process itself exits, the output stream is ended with nothing
written. -/
theorem exit_banner_rules (st : OutS) (hopen : st.isOpen = true) :
    onReplExit st =
      { st with writes := st.writes ++ [bannerLine], ended := true } ∧
    onProcessExit st = { st with ended := true } ∧
    (onProcessExit st).writes = st.writes := by
  refine ⟨?_, ?_, ?_⟩ <;> simp [onReplExit, onProcessExit, hopen]

/-- C9 witness: a freshly-opened output stream. -/
theorem exit_banner_rules_witness :
    onReplExit ⟨true, [], false⟩ = ⟨true, [bannerLine], true⟩ ∧
    onProcessExit ⟨true, [], false⟩ = ⟨true, [], true⟩ ∧
    (onProcessExit ⟨true, [], false⟩).writes = [] :=
  exit_banner_rules ⟨true, [], false⟩ rfl

/-- C10: a handshake line `null\n` makes `readJSONFromStream` report
success with the JSON value `null`, and the `onConnection` callback then
throws a `TypeError` reading `options.key` — so the connection is neither
rejected with the exit banner nor transitioned to session mode (nothing
written, nothing ended, no REPL started, no evaluation). -/
theorem null_handshake_throws :
    (rjRun [chars "null\n"]).cbs = [some .null] ∧
    (rjRun [chars "null\n"]).phase = .piped ∧
    ∀ (selfKey : Str) (socketOpen : Bool) (evalRes : Except Str JValue),
      connCallback false .null selfKey socketOpen evalRes =
        { threw := true, logged := false, writes := [], ended := false,
          replStarted := false, interactiveEnabled := false,
          evalCommands := [], negotiated := none } :=
  ⟨rfl, rfl, fun _ _ _ => rfl⟩

/-- C1 (counterexample): submit request 1 (asynchronous completion) and
then request 2 (synchronous) to the shared resolved `evalCommandPromise`:
the trace is `invoke 1, invoke 2, callback 2, callback 1`, so the second
evaluator invocation (position 1) begins before the first request's
completion callback (position 3) — the claimed serialization fails. -/
theorem evalPipeline_not_serialized :
    evalTrace [⟨1, false⟩, ⟨2, true⟩] =
      [.invokeEv 1, .invokeEv 2, .callbackEv 2, .callbackEv 1] ∧
    ¬ SecondWaitsForFirst [⟨1, false⟩, ⟨2, true⟩] 1 2 := by
  refine ⟨rfl, fun hw => ?_⟩
  have h31 := hw 3 1 rfl rfl
  omega

theorem invokeOrder_runMicrotasks (rs : List EvalReq) :
    invokeOrder (runMicrotasks rs) = rs.map EvalReq.rid := by
  induction rs with
  | nil => rfl
  | cons r rs ih =>
    have hx : invokeOrder (runMicrotasks (r :: rs)) =
        r.rid :: invokeOrder (runMicrotasks rs) := by
      cases hs : r.sync <;>
        simp [runMicrotasks, invokeOrder, hs, List.filterMap_append]
    rw [hx, ih, List.map_cons]

theorem invokeOrder_pendingCallbacks (rs : List EvalReq) :
    invokeOrder (pendingCallbacks rs) = [] := by
  simp [invokeOrder, pendingCallbacks, List.filterMap_map, Function.comp]

/-- C1 (amended): the shared resolved promise dispatches evaluator
invocations in FIFO submission order, and a synchronous evaluation's
completion callback fires before the next invocation begins; but (per the
counterexample) an asynchronous evaluation's completion callback may fire
only after later invocations have begun. -/
theorem evalPipeline_fifo :
    (∀ rs : List EvalReq, invokeOrder (evalTrace rs) = rs.map EvalReq.rid) ∧
    (∀ (r : EvalReq) (rest : List EvalReq), r.sync = true →
      evalTrace (r :: rest) =
        .invokeEv r.rid :: .callbackEv r.rid :: evalTrace rest) := by
  constructor
  · intro rs
    have hsplit3 : invokeOrder (evalTrace rs) =
        invokeOrder (runMicrotasks rs) ++ invokeOrder (pendingCallbacks rs) := by
      simp [evalTrace, invokeOrder, List.filterMap_append]
    rw [hsplit3, invokeOrder_runMicrotasks, invokeOrder_pendingCallbacks,
      List.append_nil]
  · intro r rest hsync
    simp [evalTrace, runMicrotasks, pendingCallbacks, hsync]

/-- C1 witness for the amended statement. -/
theorem evalPipeline_fifo_witness :
    invokeOrder (evalTrace [⟨1, true⟩, ⟨2, false⟩]) = [1, 2] ∧
    evalTrace (⟨1, true⟩ :: [⟨2, false⟩]) =
      .invokeEv 1 :: .callbackEv 1 :: evalTrace [⟨2, false⟩] :=
  ⟨evalPipeline_fifo.1 [⟨1, true⟩, ⟨2, false⟩],
   evalPipeline_fifo.2 ⟨1, true⟩ [⟨2, false⟩] rfl⟩

theorem getA_setA_self {α : Type} (m : List (Str × α)) (k : Str) (v : α) :
    getA (setA m k v) k = some v := by
  induction m with
  | nil => simp [setA, getA]
  | cons kv m ih =>
    obtain ⟨k1, v1⟩ := kv
    by_cases h : k1 = k <;> simp [setA, getA, h, ih]

theorem getA_setA_ne {α : Type} (m : List (Str × α)) (k' k : Str) (v : α)
    (hne : k' ≠ k) : getA (setA m k' v) k = getA m k := by
  induction m with
  | nil => simp [setA, getA, hne]
  | cons kv m ih =>
    obtain ⟨k1, v1⟩ := kv
    by_cases h1 : k1 = k' <;> by_cases h2 : k1 = k <;>
      simp [setA, getA, h1, h2, hne, Ne.symm hne, ih]

theorem getA_delA_self {α : Type} (m : List (Str × α)) (k : Str) :
    getA (delA m k) k = none := by
  induction m with
  | nil => rfl
  | cons kv m ih =>
    obtain ⟨k1, v1⟩ := kv
    by_cases h : k1 = k <;> simp [delA, List.filter_cons, getA, h] <;>
      simpa [delA] using ih

theorem getA_delA_ne {α : Type} (m : List (Str × α)) (k' k : Str)
    (hne : k' ≠ k) : getA (delA m k') k = getA m k := by
  induction m with
  | nil => rfl
  | cons kv m ih =>
    obtain ⟨k1, v1⟩ := kv
    by_cases h1 : k1 = k' <;> by_cases h2 : k1 = k <;>
      simp [delA, List.filter_cons, getA, h1, h2, hne, Ne.symm hne] <;>
      simpa [delA] using ih

theorem getA_append_single {α : Type} (m : List (Str × α)) (k' k : Str) (v : α) :
    getA (m ++ [(k', v)]) k =
      match getA m k with
      | some w => some w
      | none => if k' = k then some v else none := by
  induction m with
  | nil => simp [getA]
  | cons kv m ih =>
    obtain ⟨k1, v1⟩ := kv
    by_cases h : k1 = k <;> simp [getA, h, ih]

theorem getA_defaultA_self {α : Type} (m : List (Str × α)) (k : Str) (v : α) :
    getA (defaultA m k v) k =
      match getA m k with
      | some w => some w
      | none => some v := by
  unfold defaultA
  cases hg : getA m k with
  | some w => simp [hg]
  | none => simp [getA_append_single, hg]

theorem getA_defaultA_ne {α : Type} (m : List (Str × α)) (k' k : Str) (v : α)
    (hne : k' ≠ k) : getA (defaultA m k' v) k = getA m k := by
  unfold defaultA
  cases hg : getA m k' with
  | some w => rfl
  | none =>
    rw [getA_append_single]
    cases getA m k <;> simp [hne]

theorem getA_mapVal (m : List (Str × JValue)) (k : Str) :
    getA (m.map fun kv => (kv.1, OptVal.json kv.2)) k =
      (getA m k).map OptVal.json := by
  induction m with
  | nil => rfl
  | cons kv m ih =>
    obtain ⟨k1, v1⟩ := kv
    by_cases h : k1 = k <;> simp [getA, h, ih]

/-- C7: option negotiation (lines 126–147) removes `key` and `columns`
from the negotiated options, force-sets the host-enforced `input`
(payload pass-through stream), `output` (the socket) and `useGlobal`
(false at construction), and fills any of `prompt`, `terminal`,
`useColors`, `ignoreUndefined` the client left unset with the defaults
`"> "`, `true`, `true`, `true` — so `key` and `columns` never reach the
options object handed to the REPL. -/
theorem negotiate_invariants (fs : List (Str × JValue)) :
    getA (negotiate fs) (chars "key") = none ∧
    getA (negotiate fs) (chars "columns") = none ∧
    getA (negotiate fs) (chars "input") = some .inputStream ∧
    getA (negotiate fs) (chars "output") = some .outputSocket ∧
    getA (negotiate fs) (chars "useGlobal") = some (.json (.bool false)) ∧
    (getA (objToMap fs) (chars "prompt") = none →
      getA (negotiate fs) (chars "prompt") = some (.json (.str (chars "> ")))) ∧
    (getA (objToMap fs) (chars "terminal") = none →
      getA (negotiate fs) (chars "terminal") = some (.json (.bool true))) ∧
    (getA (objToMap fs) (chars "useColors") = none →
      getA (negotiate fs) (chars "useColors") = some (.json (.bool true))) ∧
    (getA (objToMap fs) (chars "ignoreUndefined") = none →
      getA (negotiate fs) (chars "ignoreUndefined") = some (.json (.bool true))) := by
  refine ⟨?_, ?_, ?_, ?_, ?_, ?_, ?_, ?_, ?_⟩
  · simp only [negotiate]
    rw [getA_defaultA_ne _ _ _ _ (by decide), getA_defaultA_ne _ _ _ _ (by decide),
      getA_defaultA_ne _ _ _ _ (by decide), getA_defaultA_ne _ _ _ _ (by decide),
      getA_setA_ne _ _ _ _ (by decide), getA_setA_ne _ _ _ _ (by decide),
      getA_setA_ne _ _ _ _ (by decide), getA_delA_ne _ _ _ (by decide),
      getA_delA_self]
  · simp only [negotiate]
    rw [getA_defaultA_ne _ _ _ _ (by decide), getA_defaultA_ne _ _ _ _ (by decide),
      getA_defaultA_ne _ _ _ _ (by decide), getA_defaultA_ne _ _ _ _ (by decide),
      getA_setA_ne _ _ _ _ (by decide), getA_setA_ne _ _ _ _ (by decide),
      getA_setA_ne _ _ _ _ (by decide), getA_delA_self]
  · simp only [negotiate]
    rw [getA_defaultA_ne _ _ _ _ (by decide), getA_defaultA_ne _ _ _ _ (by decide),
      getA_defaultA_ne _ _ _ _ (by decide), getA_defaultA_ne _ _ _ _ (by decide),
      getA_setA_ne _ _ _ _ (by decide), getA_setA_ne _ _ _ _ (by decide),
      getA_setA_self]
  · simp only [negotiate]
    rw [getA_defaultA_ne _ _ _ _ (by decide), getA_defaultA_ne _ _ _ _ (by decide),
      getA_defaultA_ne _ _ _ _ (by decide), getA_defaultA_ne _ _ _ _ (by decide),
      getA_setA_self]
  · simp only [negotiate]
    rw [getA_defaultA_ne _ _ _ _ (by decide), getA_defaultA_ne _ _ _ _ (by decide),
      getA_defaultA_ne _ _ _ _ (by decide), getA_defaultA_ne _ _ _ _ (by decide),
      getA_setA_ne _ _ _ _ (by decide), getA_setA_self]
  · intro hcl
    simp only [negotiate]
    rw [getA_defaultA_ne _ _ _ _ (by decide), getA_defaultA_ne _ _ _ _ (by decide),
      getA_defaultA_ne _ _ _ _ (by decide), getA_defaultA_self,
      getA_setA_ne _ _ _ _ (by decide), getA_setA_ne _ _ _ _ (by decide),
      getA_setA_ne _ _ _ _ (by decide), getA_delA_ne _ _ _ (by decide),
      getA_delA_ne _ _ _ (by decide), getA_mapVal, hcl]
    rfl
  · intro hcl
    simp only [negotiate]
    rw [getA_defaultA_ne _ _ _ _ (by decide), getA_defaultA_ne _ _ _ _ (by decide),
      getA_defaultA_self,
      getA_defaultA_ne _ _ _ _ (by decide),
      getA_setA_ne _ _ _ _ (by decide), getA_setA_ne _ _ _ _ (by decide),
      getA_setA_ne _ _ _ _ (by decide), getA_delA_ne _ _ _ (by decide),
      getA_delA_ne _ _ _ (by decide), getA_mapVal, hcl]
    rfl
  · intro hcl
    simp only [negotiate]
    rw [getA_defaultA_ne _ _ _ _ (by decide), getA_defaultA_self,
      getA_defaultA_ne _ _ _ _ (by decide), getA_defaultA_ne _ _ _ _ (by decide),
      getA_setA_ne _ _ _ _ (by decide), getA_setA_ne _ _ _ _ (by decide),
      getA_setA_ne _ _ _ _ (by decide), getA_delA_ne _ _ _ (by decide),
      getA_delA_ne _ _ _ (by decide), getA_mapVal, hcl]
    rfl
  · intro hcl
    simp only [negotiate]
    rw [getA_defaultA_self,
      getA_defaultA_ne _ _ _ _ (by decide), getA_defaultA_ne _ _ _ _ (by decide),
      getA_defaultA_ne _ _ _ _ (by decide),
      getA_setA_ne _ _ _ _ (by decide), getA_setA_ne _ _ _ _ (by decide),
      getA_setA_ne _ _ _ _ (by decide), getA_delA_ne _ _ _ (by decide),
      getA_delA_ne _ _ _ (by decide), getA_mapVal, hcl]
    rfl

/-- C7 witness: a handshake that supplies `key` and `columns` and no
display options. -/
theorem negotiate_invariants_witness :
    getA (negotiate [(chars "key", .str (chars "k")),
      (chars "columns", .num (chars "80"))]) (chars "key") = none ∧
    getA (negotiate [(chars "key", .str (chars "k")),
      (chars "columns", .num (chars "80"))]) (chars "columns") = none ∧
    getA (negotiate [(chars "key", .str (chars "k")),
      (chars "columns", .num (chars "80"))]) (chars "input")
        = some .inputStream ∧
    getA (negotiate [(chars "key", .str (chars "k")),
      (chars "columns", .num (chars "80"))]) (chars "output")
        = some .outputSocket ∧
    getA (negotiate [(chars "key", .str (chars "k")),
      (chars "columns", .num (chars "80"))]) (chars "useGlobal")
        = some (.json (.bool false)) ∧
    getA (negotiate [(chars "key", .str (chars "k")),
      (chars "columns", .num (chars "80"))]) (chars "prompt")
        = some (.json (.str (chars "> "))) ∧
    getA (negotiate [(chars "key", .str (chars "k")),
      (chars "columns", .num (chars "80"))]) (chars "ignoreUndefined")
        = some (.json (.bool true)) := by
  have h := negotiate_invariants
    [(chars "key", .str (chars "k")), (chars "columns", .num (chars "80"))]
  exact ⟨h.1, h.2.1, h.2.2.1, h.2.2.2.1, h.2.2.2.2.1,
    h.2.2.2.2.2.1 rfl, h.2.2.2.2.2.2.2.2 rfl⟩

theorem jsGet_obj (fs : List (Str × JValue)) (k : Str) :
    jsGet (.obj fs) k = .ok (getA (objToMap fs) k) := rfl

theorem oneShot_stringify_shape (evalRes : Except Str JValue) :
    ∃ t2, jsonStringify (oneShotMessage evalRes) = '\x7b' :: t2 := by
  cases evalRes with
  | error e =>
    exact ⟨stringifyFields [(chars "error", .str e), (chars "code", .num (chars "1"))]
      ++ ['\x7d'], by simp [oneShotMessage, jsonStringify]⟩
  | ok v =>
    exact ⟨stringifyFields [(chars "result", v)] ++ ['\x7d'],
      by simp [oneShotMessage, jsonStringify]⟩

/-- The exit banner line is never the one-shot JSON response line. -/
theorem bannerLine_ne_oneShot (evalRes : Except Str JValue) :
    bannerLine ≠ jsonStringify (oneShotMessage evalRes) ++ ['\n'] := by
  intro hEq
  obtain ⟨t2, ht2⟩ := oneShot_stringify_shape evalRes
  have hhd := congrArg List.head? hEq
  rw [ht2] at hhd
  have h1 : bannerLine.head? = some 'S' := rfl
  rw [h1] at hhd
  simp at hhd

/-- C5: a completed handshake whose `key` is not strictly equal to the
listener's secret receives the exit banner and the socket is ended, with
no REPL started and no evaluation dispatched; a completed handshake whose
`key` equals the secret proceeds past authentication — the REPL is
started and the exit banner is never written on that path. -/
theorem handshake_auth (fs : List (Str × JValue)) (selfKey : Str)
    (socketOpen : Bool) (evalRes : Except Str JValue) :
    (keyMismatch (getA (objToMap fs) (chars "key")) selfKey = true →
      connCallback false (.obj fs) selfKey socketOpen evalRes =
        { threw := false, logged := false,
          writes := if socketOpen then [bannerLine] else [],
          ended := socketOpen, replStarted := false,
          interactiveEnabled := false, evalCommands := [],
          negotiated := none }) ∧
    (getA (objToMap fs) (chars "key") = some (.str selfKey) →
      (connCallback false (.obj fs) selfKey socketOpen evalRes).replStarted
          = true ∧
      bannerLine ∉
        (connCallback false (.obj fs) selfKey socketOpen evalRes).writes) := by
  constructor
  · intro hmm
    simp [connCallback, jsGet_obj, hmm]
  · intro hk
    have hkm : keyMismatch (getA (objToMap fs) (chars "key")) selfKey = false := by
      rw [hk]; simp [keyMismatch]
    have hstruct :
        (connCallback false (.obj fs) selfKey socketOpen evalRes).replStarted
            = true ∧
        ((connCallback false (.obj fs) selfKey socketOpen evalRes).writes = [] ∨
         (connCallback false (.obj fs) selfKey socketOpen evalRes).writes =
           [jsonStringify (oneShotMessage evalRes) ++ ['\n']]) := by
      simp only [connCallback, jsGet_obj, hkm, Bool.false_eq_true, if_false]
      cases he : getA (negotiate fs) (chars "evaluateAndExit") with
      | none => simp [interactiveOut]
      | some ov =>
        cases ov with
        | json e =>
          cases ht : jsTruthy e
          · simp [interactiveOut, ht]
          · cases hc : jsGet e (chars "command") with
            | error u => simp [ht, hc]
            | ok cmd => cases socketOpen <;> simp [ht, hc]
        | inputStream => simp [interactiveOut]
        | outputSocket => simp [interactiveOut]
    refine ⟨hstruct.1, ?_⟩
    rcases hstruct.2 with hw | hw <;> rw [hw]
    · simp
    · simp [bannerLine_ne_oneShot evalRes]

/-- C5 witness: a wrong key is rejected with the banner; the right key
starts the REPL with no banner. -/
theorem handshake_auth_witness :
    connCallback false (.obj [(chars "key", .str (chars "wrong"))]) (chars "k")
        true (.ok .null) =
      { threw := false, logged := false, writes := [bannerLine], ended := true,
        replStarted := false, interactiveEnabled := false, evalCommands := [],
        negotiated := none } ∧
    (connCallback false (.obj [(chars "key", .str (chars "k"))]) (chars "k")
        true (.ok .null)).replStarted = true ∧
    bannerLine ∉ (connCallback false (.obj [(chars "key", .str (chars "k"))])
        (chars "k") true (.ok .null)).writes := by
  have h1 := (handshake_auth [(chars "key", .str (chars "wrong"))] (chars "k")
    true (.ok .null)).1 (by decide)
  have h2 := (handshake_auth [(chars "key", .str (chars "k"))] (chars "k")
    true (.ok .null)).2 rfl
  exact ⟨h1, h2.1, h2.2⟩

/-- C6: with a matching key and a truthy `evaluateAndExit`, the negotiated
prompt is forced to the empty string, the REPL is started but interactive
mode is not, exactly one evaluation of the supplied command is dispatched,
and on its completion exactly one newline-terminated JSON object —
`{"result": v}` on success or `{"error": e, "code": 1}` on failure — is
written to the socket and the socket is ended; the exit banner is never
written on this path. -/
theorem oneShot_semantics (fs : List (Str × JValue)) (selfKey : Str)
    (e : JValue) (evalRes : Except Str JValue)
    (hk : getA (objToMap fs) (chars "key") = some (.str selfKey))
    (he : getA (objToMap fs) (chars "evaluateAndExit") = some e)
    (ht : jsTruthy e = true) :
    connCallback false (.obj fs) selfKey true evalRes =
      { threw := false, logged := false,
        writes := [jsonStringify (oneShotMessage evalRes) ++ ['\n']],
        ended := true, replStarted := true, interactiveEnabled := false,
        evalCommands := [jsGetOpt e (chars "command")],
        negotiated := some (setA (negotiate fs) (chars "prompt")
          (.json (.str []))) } ∧
    getA (setA (negotiate fs) (chars "prompt") (.json (.str [])))
        (chars "prompt") = some (.json (.str [])) ∧
    bannerLine ∉ [jsonStringify (oneShotMessage evalRes) ++ ['\n']] ∧
    (∀ w, oneShotMessage (.ok w) = .obj [(chars "result", w)]) ∧
    (∀ s, oneShotMessage (.error s) =
      .obj [(chars "error", .str s), (chars "code", .num (chars "1"))]) := by
  have heae : getA (negotiate fs) (chars "evaluateAndExit")
      = some (.json e) := by
    simp only [negotiate]
    rw [getA_defaultA_ne _ _ _ _ (by decide), getA_defaultA_ne _ _ _ _ (by decide),
      getA_defaultA_ne _ _ _ _ (by decide), getA_defaultA_ne _ _ _ _ (by decide),
      getA_setA_ne _ _ _ _ (by decide), getA_setA_ne _ _ _ _ (by decide),
      getA_setA_ne _ _ _ _ (by decide), getA_delA_ne _ _ _ (by decide),
      getA_delA_ne _ _ _ (by decide), getA_mapVal, he]
    rfl
  have hcmd : jsGet e (chars "command") = .ok (jsGetOpt e (chars "command")) := by
    cases e <;> simp_all [jsGet, jsGetOpt, jsTruthy]
  have hkm : keyMismatch (getA (objToMap fs) (chars "key")) selfKey = false := by
    rw [hk]; simp [keyMismatch]
  refine ⟨?_, getA_setA_self _ _ _, by simp [bannerLine_ne_oneShot evalRes],
    fun w => rfl, fun s => rfl⟩
  simp [connCallback, jsGet_obj, hkm, heae, ht, hcmd]

/-- C6 witness: key `k`, command `1+1`, successful result `2`. -/
theorem oneShot_semantics_witness :
    connCallback false (.obj [(chars "key", .str (chars "k")),
        (chars "evaluateAndExit", .obj [(chars "command", .str (chars "1+1"))])])
      (chars "k") true (.ok (.num (chars "2"))) =
      { threw := false, logged := false,
        writes := [jsonStringify (oneShotMessage (.ok (.num (chars "2"))))
          ++ ['\n']],
        ended := true, replStarted := true, interactiveEnabled := false,
        evalCommands := [jsGetOpt
          (.obj [(chars "command", .str (chars "1+1"))]) (chars "command")],
        negotiated := some (setA
          (negotiate [(chars "key", .str (chars "k")),
            (chars "evaluateAndExit",
              .obj [(chars "command", .str (chars "1+1"))])])
          (chars "prompt") (.json (.str []))) } ∧
    getA (setA
        (negotiate [(chars "key", .str (chars "k")),
          (chars "evaluateAndExit",
            .obj [(chars "command", .str (chars "1+1"))])])
        (chars "prompt") (.json (.str []))) (chars "prompt")
      = some (.json (.str [])) ∧
    bannerLine ∉ [jsonStringify (oneShotMessage (.ok (.num (chars "2"))))
      ++ ['\n']] ∧
    (∀ w, oneShotMessage (.ok w) = .obj [(chars "result", w)]) ∧
    (∀ s, oneShotMessage (.error s) =
      .obj [(chars "error", .str s), (chars "code", .num (chars "1"))]) :=
  oneShot_semantics
    [(chars "key", .str (chars "k")),
     (chars "evaluateAndExit", .obj [(chars "command", .str (chars "1+1"))])]
    (chars "k") (.obj [(chars "command", .str (chars "1+1"))])
    (.ok (.num (chars "2"))) rfl rfl rfl

theorem rjRun_eq_steps (ds : List Str) :
    rjRun ds = (ds.map SEv.data).foldl rjStep rjInit := by
  rw [rjRun, List.foldl_map]
  rfl

theorem rjData'_none_phase (st : RJ) (c : Str) (h : st.phase = .reading)
    (hn : (rjData' st c).2 = none) : (rjData' st c).1.phase = .reading := by
  simp only [rjData', h] at hn ⊢
  by_cases ha : st.attData
  · simp only [ha, if_true] at hn ⊢
    cases hf : feedLines st.buf (splitNL c) with
    | inl d => simp [hf]
    | inr x =>
      obtain ⟨d, j, rest⟩ := x
      rw [hf] at hn
      simp at hn
  · simp [ha, h]

theorem rjData'_some_phase (st : RJ) (c : Str) (v : JValue)
    (hs : (rjData' st c).2 = some v) : (rjData' st c).1.phase = .piped := by
  cases hp : st.phase with
  | reading =>
    simp only [rjData', hp] at hs ⊢
    by_cases ha : st.attData
    · simp only [ha, if_true] at hs ⊢
      cases hf : feedLines st.buf (splitNL c) with
      | inl d =>
        rw [hf] at hs
        simp at hs
      | inr x =>
        obtain ⟨d, j, rest⟩ := x
        simp [hf]
    · simp [ha] at hs
  | piped => simp [rjData', hp] at hs
  | failed => simp [rjData', hp] at hs

theorem cstep_data_phase (k : Str) (er : Except Str JValue) (st : CState)
    (s : Str) (h : st.rj.phase ≠ .reading) :
    (cstep k er st (.data s)).rj.phase = st.rj.phase := by
  cases hp : st.rj.phase with
  | reading => exact absurd hp h
  | piped => simp [cstep, rjData', hp]
  | failed => simp [cstep, rjData', hp]

theorem foldl_cstep_data_not_reading (k : Str) (er : Except Str JValue)
    (ds : List Str) (st : CState) (h : st.rj.phase ≠ .reading) :
    ((ds.map CEvent.data).foldl (cstep k er) st).rj.phase = st.rj.phase := by
  induction ds generalizing st with
  | nil => rfl
  | cons c ds ih =>
    simp only [List.map_cons, List.foldl_cons]
    rw [ih _ (by rw [cstep_data_phase k er st c h]; exact h),
      cstep_data_phase k er st c h]

theorem crun_data_reading_aux (k : Str) (er : Except Str JValue) :
    ∀ (ds : List Str) (rj0 : RJ), rj0.phase = .reading →
      ((ds.map CEvent.data).foldl (cstep k er)
        ⟨rj0, true, true, [], false, []⟩).rj.phase = .reading →
      (ds.map CEvent.data).foldl (cstep k er) ⟨rj0, true, true, [], false, []⟩ =
        ⟨ds.foldl rjData rj0, true, true, [], false, []⟩ := by
  intro ds
  induction ds with
  | nil =>
    intro rj0 h0 hfin
    rfl
  | cons c ds ih =>
    intro rj0 h0 hfin
    cases hpr : (rjData' rj0 c).2 with
    | none =>
      have hstep : cstep k er ⟨rj0, true, true, [], false, []⟩ (.data c) =
          ⟨rjData rj0 c, true, true, [], false, []⟩ := by
        simp [cstep, hpr, rjData]
      rw [List.map_cons, List.foldl_cons, hstep] at hfin
      rw [List.map_cons, List.foldl_cons, hstep, List.foldl_cons]
      exact ih (rjData rj0 c) (rjData'_none_phase rj0 c h0 hpr) hfin
    | some v =>
      exfalso
      have hph : (rjData' rj0 c).1.phase = .piped := rjData'_some_phase rj0 c v hpr
      have hstep : (cstep k er ⟨rj0, true, true, [], false, []⟩ (.data c)).rj
          = (rjData' rj0 c).1 := by
        simp [cstep, hpr]
      have hrest := foldl_cstep_data_not_reading k er ds
        (cstep k er ⟨rj0, true, true, [], false, []⟩ (.data c))
        (by rw [hstep, hph]; simp)
      rw [List.map_cons, List.foldl_cons] at hfin
      rw [hrest, hstep, hph] at hfin
      simp at hfin

theorem crun_data_reading (k : Str) (er : Except Str JValue) (ds : List Str)
    (h : (crun k er (ds.map .data)).rj.phase = .reading) :
    crun k er (ds.map .data) = ⟨rjRun ds, true, true, [], false, []⟩ :=
  crun_data_reading_aux k er ds rjInit rfl h

/-- C4: on a connection where no valid handshake JSON value has been
obtained when the 1000 ms timer fires, the server writes the exit banner
`Shell exiting...` and ends the socket (removing its data listeners), and
once the resulting close completes, no handshake-framing listeners remain
attached (`finish` detached the error/close listeners and the data
listener is gone) and no timer is pending. -/
theorem handshake_timeout_cleanup (selfKey : Str) (evalRes : Except Str JValue)
    (ds : List Str)
    (hread : (crun selfKey evalRes (ds.map .data)).rj.phase = .reading) :
    (crun selfKey evalRes
        (ds.map .data ++ [.timeout, .sockClose])).writes = [bannerLine] ∧
    (crun selfKey evalRes
        (ds.map .data ++ [.timeout, .sockClose])).endCalled = true ∧
    (crun selfKey evalRes
        (ds.map .data ++ [.timeout, .sockClose])).rj.attData = false ∧
    (crun selfKey evalRes
        (ds.map .data ++ [.timeout, .sockClose])).rj.attErr = false ∧
    (crun selfKey evalRes
        (ds.map .data ++ [.timeout, .sockClose])).rj.attClose = false ∧
    (crun selfKey evalRes
        (ds.map .data ++ [.timeout, .sockClose])).timerPending = false ∧
    (crun selfKey evalRes
        (ds.map .data ++ [.timeout, .sockClose])).socketOpen = false ∧
    (crun selfKey evalRes
        (ds.map .data ++ [.timeout, .sockClose])).handled = [none] := by
  have hgood := crun_data_reading selfKey evalRes ds hread
  have hph : (rjRun ds).phase = .reading := by
    rw [hgood] at hread
    exact hread
  have hinv : RJInv (rjRun ds) := by
    rw [rjRun_eq_steps]
    exact foldl_rjStep_inv (ds.map .data) rjInit
      (Or.inl ⟨rfl, rfl, rfl, rfl, rfl, rfl⟩)
  rcases hinv with ⟨_, _, _, _, hE, hC⟩ | ⟨hbad, _⟩
  · have hsplit4 : crun selfKey evalRes (ds.map .data ++ [.timeout, .sockClose]) =
        [CEvent.timeout, CEvent.sockClose].foldl (cstep selfKey evalRes)
          (crun selfKey evalRes (ds.map .data)) := by
      simp [crun, List.foldl_append]
    have h1 : cstep selfKey evalRes ⟨rjRun ds, true, true, [], false, []⟩
          .timeout =
        ⟨{ rjRun ds with attData := false }, true, false, [bannerLine],
          true, []⟩ := by
      simp [cstep]
    have h2 : cstep selfKey evalRes
          ⟨{ rjRun ds with attData := false }, true, false, [bannerLine],
            true, []⟩ .sockClose =
        ⟨{ rjRun ds with
            attData := false
            phase := .failed
            cbs := (rjRun ds).cbs ++ [none]
            attErr := false
            attClose := false
            detachOps := (rjRun ds).detachOps + 1 },
          false, false, [bannerLine], true, [none]⟩ := by
      simp [cstep, hC, rjFinish', hph]
    rw [hsplit4, hgood]
    simp [List.foldl_cons, List.foldl_nil, h1, h2]
  · exact absurd hph hbad

/-- C4 witness: a connection that only ever sent the truncated chunk
`{"ke` before the deadline. -/
theorem handshake_timeout_cleanup_witness :
    (crun (chars "k") (.ok .null)
        ([chars "\x7b\"ke"].map .data ++ [.timeout, .sockClose])).writes
      = [bannerLine] ∧
    (crun (chars "k") (.ok .null)
        ([chars "\x7b\"ke"].map .data ++ [.timeout, .sockClose])).endCalled
      = true ∧
    (crun (chars "k") (.ok .null)
        ([chars "\x7b\"ke"].map .data ++ [.timeout, .sockClose])).rj.attData
      = false ∧
    (crun (chars "k") (.ok .null)
        ([chars "\x7b\"ke"].map .data ++ [.timeout, .sockClose])).rj.attErr
      = false ∧
    (crun (chars "k") (.ok .null)
        ([chars "\x7b\"ke"].map .data ++ [.timeout, .sockClose])).rj.attClose
      = false ∧
    (crun (chars "k") (.ok .null)
        ([chars "\x7b\"ke"].map .data ++ [.timeout, .sockClose])).timerPending
      = false ∧
    (crun (chars "k") (.ok .null)
        ([chars "\x7b\"ke"].map .data ++ [.timeout, .sockClose])).socketOpen
      = false ∧
    (crun (chars "k") (.ok .null)
        ([chars "\x7b\"ke"].map .data ++ [.timeout, .sockClose])).handled
      = [none] :=
  handshake_timeout_cleanup (chars "k") (.ok .null) [chars "\x7b\"ke"] rfl
